import Mathlib

/-!
# Verification of the TargetGroupBinding networking manager

This development embeds the network-security reconciliation engine of the
aws-load-balancer-controller fork: the port resolver, the per-binding
permission computer, the per-security-group permission aggregator
(unrestricted and restricted views), the endpoint security-group resolver
for ENIs, and the garbage-collection sweep of the networking manager.

The repository snapshot ships the unit tests of `defaultNetworkingManager`
(`src/unnamed/part_000`) but not `networking_manager.go` itself, so every
operation below is modelled from the specification (spec.md §4) with the
test fixtures of `src/unnamed/part_000` pinning concrete behaviour.  Each
definition's doc comment records which spec passage and which test cases it
was reconstructed from.
-/

/-- Port specification: either a numeric port or a named port
(Kubernetes `intstr.IntOrString`). -/
inductive IntOrString where
  | int (n : Int)
  | str (s : String)
deriving DecidableEq, Repr

/-- One container port of a pod: a name and a numeric port
(`corev1.ContainerPort`). -/
structure ContainerPort where
  name : String
  port : Int
deriving DecidableEq, Repr

/-- Pod endpoint descriptor (`k8s.PodInfo`): identity plus named container
ports. -/
structure PodInfo where
  ns : String
  name : String
  containerPorts : List ContainerPort
deriving DecidableEq, Repr

/-- Namespace+name pair identifying one TargetGroupBinding
(`types.NamespacedName`). -/
structure NamespacedName where
  ns : String
  name : String
deriving DecidableEq, Repr

/-- Declared networking protocol of a rule port
(`elbv2api.NetworkingProtocol`). -/
inductive NetworkingProtocol where
  | tcp
  | udp
deriving DecidableEq, Repr

/-- Peer of a networking ingress rule (`elbv2api.NetworkingPeer`): exactly
one of a security-group reference or an IP block (CIDR string). -/
inductive NetworkingPeer where
  | securityGroup (groupID : String)
  | ipBlock (cidr : String)
deriving DecidableEq, Repr

/-- Port entry of a networking ingress rule (`elbv2api.NetworkingPort`):
optional protocol (defaults to TCP) and optional port spec (absent means
all ports 0-65535). -/
structure NetworkingPort where
  protocol : Option NetworkingProtocol
  port : Option IntOrString
deriving DecidableEq, Repr

/-- One ingress rule of a binding's networking policy
(`elbv2api.NetworkingIngressRule`): peers (the Go field `From`) crossed
with ports. -/
structure NetworkingIngressRule where
  fromPeers : List NetworkingPeer
  ports : List NetworkingPort
deriving DecidableEq, Repr

/-- A binding's declared networking policy
(`elbv2api.TargetGroupBindingNetworking`). -/
structure TargetGroupBindingNetworking where
  ingress : List NetworkingIngressRule
deriving DecidableEq, Repr

/-- Peer descriptor carried by one cloud ingress permission: a
`UserIdGroupPair`-style security-group reference, an IPv4 range, or an
IPv6 range, each with an optional description string. -/
inductive IPPeer where
  | sg (groupID : String) (description : Option String)
  | v4 (cidr : String) (description : Option String)
  | v6 (cidr : String) (description : Option String)
deriving DecidableEq, Repr

/-- One cloud-native ingress rule descriptor (`networking.IPPermissionInfo`
wrapping `ec2types.IpPermission`): protocol, optional port range, exactly
one peer, and provenance labels. -/
structure IPPermissionInfo where
  ipProtocol : String
  fromPort : Option Int
  toPort : Option Int
  peer : IPPeer
  labels : List (String × String)
deriving DecidableEq, Repr

/-- Association-list lookup by key: the model of Go map indexing used for
the per-binding registry and per-SG permission maps. -/
def alookup {κ β : Type} [DecidableEq κ] (k : κ) : List (κ × β) → Option β
  | [] => none
  | (k', v) :: rest => if k' = k then some v else alookup k rest

/-- Per-binding permission map: security-group ID to ordered permission
list (`map[string][]IPPermissionInfo`). -/
abbrev SGPermMap := List (String × List IPPermissionInfo)

/-- The networking manager's registry (`ingressPermissionsPerSGByTGB`):
binding identity to per-SG permission map. -/
abbrev Registry := List (NamespacedName × SGPermMap)

/-- Worker of `firstSeenDedup`: walks the list keeping a value exactly when
it is neither in the already-seen accumulator nor seen earlier. -/
def firstSeenDedupAux (seen : List Int) : List Int → List Int
  | [] => []
  | x :: xs =>
    if x ∈ seen then firstSeenDedupAux seen xs
    else x :: firstSeenDedupAux (x :: seen) xs

/-- First-seen-order deduplication of a list of numeric ports: keeps the
first occurrence of each value and drops later duplicates.  Models the
set-accumulation of the port resolver (spec.md §4.1: "order = first-seen,
duplicates removed"). -/
def firstSeenDedup (l : List Int) : List Int :=
  firstSeenDedupAux [] l

/-- The numeric container ports a single pod exposes under a given port
name, in container-port order. -/
def podPortsForName (portName : String) (pod : PodInfo) : List Int :=
  pod.containerPorts.filterMap
    (fun cp => if cp.name = portName then some cp.port else none)

/-- Modelled from the spec: `defaultNetworkingManager.computeNumericalPorts`
is not under src/ (only `Test_defaultNetworkingManager_computeNumericalPorts`
is).  Reconstructed from spec.md §4.1: a numeric spec resolves to itself
regardless of pods; a named spec with no pods fails with exactly
"named ports can only be used with pod endpoints"; otherwise the result is
the first-seen-deduplicated list of every matching numeric container port
across all pods. -/
def computeNumericalPorts (port : IntOrString) (pods : List PodInfo) :
    Except String (List Int) :=
  match port with
  | .int n => .ok [n]
  | .str s =>
    if pods.isEmpty then
      .error "named ports can only be used with pod endpoints"
    else
      .ok (firstSeenDedup (pods.flatMap (podPortsForName s)))

/-- Provenance label key attached to every manager-owned permission
(`tgbNetworkingIPPermissionLabelKey` in the tests). -/
def tgbNetworkingIPPermissionLabelKey : String := "elbv2.k8s.aws/targetGroupBinding"

/-- Provenance label value (`tgbNetworkingIPPermissionLabelValue`). -/
def tgbNetworkingIPPermissionLabelValue : String := "shared"

/-- Fixed provenance description carried by every peer descriptor the
permission computer emits (spec.md §4.2,
"elbv2.k8s.aws/targetGroupBinding=shared"). -/
def tgbNetworkingDescription : String := "elbv2.k8s.aws/targetGroupBinding=shared"

/-- Kind of a parsed CIDR: IPv4 or IPv6. -/
inductive CIDRKind where
  | v4
  | v6
deriving DecidableEq, Repr

/-- Splits a character list on a separator character, the model of Go's
string splitting used by `cidrKind`. -/
def splitOnChar (sep : Char) : List Char → List (List Char)
  | [] => [[]]
  | c :: cs =>
    if c = sep then [] :: splitOnChar sep cs
    else
      match splitOnChar sep cs with
      | [] => [[c]]
      | r :: rs => (c :: r) :: rs

/-- Shallow model of CIDR parsing (spec.md §4.2 "detect v4 vs v6 by parsing
the CIDR"; malformed CIDRs are rejected): the string must be
`address/mask` with a nonempty address and a numeric mask, and is IPv6
exactly when the address contains a colon. -/
def cidrKind (c : String) : Option CIDRKind :=
  match splitOnChar '/' c.toList with
  | [addr, mask] =>
    if addr ≠ [] ∧ mask ≠ [] ∧ mask.all Char.isDigit then
      if addr.contains ':' then some .v6 else some .v4
    else none
  | _ => none

/-- String form of a declared protocol (`IpProtocol` field values in the
tests). -/
def protocolToString : NetworkingProtocol → String
  | .tcp => "tcp"
  | .udp => "udp"

/-- Protocol of a rule port, defaulting to TCP when unspecified
(spec.md §4.2). -/
def portProtocolString (port : NetworkingPort) : String :=
  match port.protocol with
  | none => "tcp"
  | some pr => protocolToString pr

/-- Builds the single permission for one peer and one concrete port range,
attaching the fixed provenance description and label; fails on a malformed
CIDR (spec.md §4.2). -/
def mkPermissionForPeer (protocol : String) (f t : Int) (peer : NetworkingPeer) :
    Except String IPPermissionInfo :=
  match peer with
  | .securityGroup gid =>
    .ok ⟨protocol, some f, some t, .sg gid (some tgbNetworkingDescription),
      [(tgbNetworkingIPPermissionLabelKey, tgbNetworkingIPPermissionLabelValue)]⟩
  | .ipBlock cidr =>
    match cidrKind cidr with
    | some .v4 =>
      .ok ⟨protocol, some f, some t, .v4 cidr (some tgbNetworkingDescription),
        [(tgbNetworkingIPPermissionLabelKey, tgbNetworkingIPPermissionLabelValue)]⟩
    | some .v6 =>
      .ok ⟨protocol, some f, some t, .v6 cidr (some tgbNetworkingDescription),
        [(tgbNetworkingIPPermissionLabelKey, tgbNetworkingIPPermissionLabelValue)]⟩
    | none => .error ("invalid CIDR address: " ++ cidr)

/-- Modelled from the spec:
`defaultNetworkingManager.computePermissionsForPeerPort` is not under src/
(only its test is).  Reconstructed from spec.md §4.2 and the fixtures of
`Test_defaultNetworkingManager_computePermissionsForPeerPort`: protocol
defaults to TCP; an absent port spec yields one permission for 0-65535; a
present spec is resolved through `computeNumericalPorts` and yields one
permission per numeric port. -/
def computePermissionsForPeerPort (peer : NetworkingPeer) (port : NetworkingPort)
    (pods : List PodInfo) : Except String (List IPPermissionInfo) :=
  let protocol := portProtocolString port
  match port.port with
  | none => (mkPermissionForPeer protocol 0 65535 peer).map (fun p => [p])
  | some spec => do
    let ports ← computeNumericalPorts spec pods
    ports.mapM (fun n => mkPermissionForPeer protocol n n peer)

/-- Modelled from the spec:
`defaultNetworkingManager.computeIngressPermissionsForTGBNetworking` is not
under src/ (only its test is).  Reconstructed from spec.md §4.2: for each
rule, for each peer, for each port spec, append the permissions of
`computePermissionsForPeerPort`; any failure aborts the whole computation. -/
def computeIngressPermissionsForTGBNetworking
    (tgbNetworking : TargetGroupBindingNetworking) (pods : List PodInfo) :
    Except String (List IPPermissionInfo) := do
  let perRule ← tgbNetworking.ingress.mapM (fun rule => do
    let perPeer ← rule.fromPeers.mapM (fun peer => do
      let perPort ← rule.ports.mapM
        (fun port => computePermissionsForPeerPort peer port pods)
      pure perPort.flatten)
    pure perPeer.flatten)
  pure perRule.flatten

/-- All permissions contributed to one security group by the registry:
concatenation of every binding's permission list for that group, in
registry-iteration order (spec.md §4.3, unrestricted view). -/
def contributionsForSG (reg : Registry) (sg : String) : List IPPermissionInfo :=
  reg.flatMap (fun e => (alookup sg e.2).getD [])

/-- The security-group IDs referenced by some binding of the registry,
duplicates removed. -/
def sgKeysOfRegistry (reg : Registry) : List String :=
  (reg.flatMap (fun e => e.2.map Prod.fst)).dedup

/-- Modelled from the spec:
`defaultNetworkingManager.computeUnrestrictedIngressPermissionsPerSG` is not
under src/ (only its test is).  Reconstructed from spec.md §4.3: the raw
union view — one key per referenced security group, mapped to the
concatenation of every binding's permission list for that group, with no
merging; an empty registry yields an empty mapping. -/
def computeUnrestrictedIngressPermissionsPerSG (reg : Registry) : SGPermMap :=
  (sgKeysOfRegistry reg).map (fun sg => (sg, contributionsForSG reg sg))

/-- Identity of a permission's peer: the security-group ID or the CIDR
string, tagged by kind (spec.md §4.3 "peer-identity is the
security-group-ID or CIDR string"); descriptions are not part of the
identity. -/
inductive PeerIdent where
  | sg (groupID : String)
  | v4 (cidr : String)
  | v6 (cidr : String)
deriving DecidableEq, Repr

/-- Peer identity of a permission's peer descriptor. -/
def peerIdentOf : IPPeer → PeerIdent
  | .sg g _ => .sg g
  | .v4 c _ => .v4 c
  | .v6 c _ => .v6 c

/-- Grouping key of the restricted view: protocol plus peer identity. -/
def permGroupKey (p : IPPermissionInfo) : String × PeerIdent :=
  (p.ipProtocol, peerIdentOf p.peer)

/-- FromPort of a permission with an absent range normalized to 0
(spec.md §4.3: ranges with no explicit port set become 0-65535). -/
def normFromPort (p : IPPermissionInfo) : Int :=
  p.fromPort.getD 0

/-- ToPort of a permission with an absent range normalized to 65535. -/
def normToPort (p : IPPermissionInfo) : Int :=
  p.toPort.getD 65535

/-- The distinct grouping keys of a permission list, in first-occurrence
order. -/
def permGroupKeys (ps : List IPPermissionInfo) : List (String × PeerIdent) :=
  (ps.map permGroupKey).dedup

/-- The permissions of a list belonging to one grouping key, in input
order. -/
def permsForGroupKey (ps : List IPPermissionInfo) (k : String × PeerIdent) :
    List IPPermissionInfo :=
  ps.filter (fun p => permGroupKey p = k)

/-- Collapses one nonempty group of same-protocol same-peer permissions
into the single permission spanning the minimum normalized FromPort to the
maximum normalized ToPort; the peer descriptor is taken from the group's
first permission and provenance labels are dropped.  (The restricted-view
test fixtures show that non-overlapping ranges such as udp 8080-8080 and
udp 8443-8443 also collapse into one spanning range 8080-8443.) -/
def mergePermGroup : List IPPermissionInfo → Option IPPermissionInfo
  | [] => none
  | p :: rest =>
    some ⟨p.ipProtocol,
      some (rest.foldl (fun acc q => min acc (normFromPort q)) (normFromPort p)),
      some (rest.foldl (fun acc q => max acc (normToPort q)) (normToPort p)),
      p.peer, []⟩

/-- Restricted form of one security group's permission list: group by
(protocol, peer identity) in first-occurrence order and collapse each group
with `mergePermGroup`. -/
def restrictIngressPermissions (ps : List IPPermissionInfo) :
    List IPPermissionInfo :=
  (permGroupKeys ps).filterMap (fun k => mergePermGroup (permsForGroupKey ps k))

/-- Modelled from the spec:
`defaultNetworkingManager.computeRestrictedIngressPermissionsPerSG` is not
under src/ (only its test is).  Reconstructed from spec.md §4.3 and the
fixtures of
`Test_defaultNetworkingManager_computeRestrictedIngressPermissionsPerSG`:
per security group, permissions are grouped by (protocol, peer identity),
missing port ranges are normalized to 0-65535, and each group collapses to
a single min-FromPort/max-ToPort range (the fixtures pin the spanning
collapse, not an interval merge). -/
def computeRestrictedIngressPermissionsPerSG (reg : Registry) : SGPermMap :=
  (sgKeysOfRegistry reg).map
    (fun sg => (sg, restrictIngressPermissions (contributionsForSG reg sg)))

/-- Cloud-fetched snapshot of a security group (`SecurityGroupInfo`): ID
and tag mapping (ingress permissions are not needed by the resolver). -/
structure SecurityGroupInfo where
  securityGroupID : String
  tags : List (String × String)
deriving DecidableEq, Repr

/-- ENI descriptor (`ENIInfo`): ID plus attached security-group IDs. -/
structure ENIInfo where
  networkInterfaceID : String
  securityGroups : List String
deriving DecidableEq, Repr

/-- The cluster-ownership tag key `kubernetes.io/cluster/<clusterName>`. -/
def clusterOwnershipTagKey (clusterName : String) : String :=
  "kubernetes.io/cluster/" ++ clusterName

/-- Whether a fetched security group carries the cluster-ownership tag with
value "owned" (spec.md §4.5). -/
def hasClusterOwnershipTag (clusterName : String) (info : SecurityGroupInfo) :
    Bool :=
  alookup (clusterOwnershipTagKey clusterName) info.tags = some "owned"

/-- Whether a fetched security group matches every configured selector tag:
each key must be present, with the configured value, or with any value when
the configured value is the empty string (spec.md §4.5). -/
def matchesTargetENISGTags (selectorTags : List (String × String))
    (info : SecurityGroupInfo) : Bool :=
  selectorTags.all (fun kv =>
    match alookup kv.1 info.tags with
    | none => false
    | some tv => kv.2 = "" || tv = kv.2)

/-- Insertion of one tag pair into a key-sorted list, used to reproduce
Go's sorted-key `map[k1:v1 k2:v2]` formatting. -/
def insertTagSorted (x : String × String) :
    List (String × String) → List (String × String)
  | [] => [x]
  | y :: ys => if x.1 ≤ y.1 then x :: y :: ys else y :: insertTagSorted x ys

/-- Key-sorted copy of a tag list. -/
def sortTagsByKey (l : List (String × String)) : List (String × String) :=
  l.foldr insertTagSorted []

/-- Go `fmt` rendering of a string-to-string map: `map[k1:v1 k2:v2]` with
keys sorted. -/
def goFormatTagMap (l : List (String × String)) : String :=
  "map[" ++ String.intercalate " "
    ((sortTagsByKey l).map (fun kv => kv.1 ++ ":" ++ kv.2)) ++ "]"

/-- Go `fmt` rendering of a string slice: `[a b c]`. -/
def goFormatStringList (l : List String) : String :=
  "[" ++ String.intercalate " " l ++ "]"

/-- The error message produced when not exactly one security group matches
the endpoint criteria, naming the expected tag set (clusterName and the
configured filter map), the ENI ID and the matched IDs (exact strings from
`Test_defaultNetworkingManager_resolveEndpointSGForENI`). -/
def endpointSGErrorMessage (clusterName : String)
    (selectorTags : List (String × String)) (eniID : String)
    (matchedIDs : List String) : String :=
  "expected exactly one securityGroup tagged with kubernetes.io/cluster/"
    ++ clusterName
    ++ (if selectorTags.isEmpty then "" else " and " ++ goFormatTagMap selectorTags)
    ++ " for eni " ++ eniID
    ++ ", got: " ++ goFormatStringList matchedIDs
    ++ " (clusterName: " ++ clusterName ++ ")"

/-- Modelled from the spec:
`defaultNetworkingManager.resolveEndpointSGForENI` is not under src/ (only
its test is).  Reconstructed from spec.md §4.5: with exactly one attached
security group the resolver short-circuits to it without a fetch;
otherwise the fetched groups (passed here as the fetch result, in fetch
order) are filtered to those owned by the cluster and matching every
configured selector tag, the unique match is returned, and zero or several
matches fail with `endpointSGErrorMessage`. -/
def resolveEndpointSGForENI (clusterName : String)
    (selectorTags : List (String × String)) (eniInfo : ENIInfo)
    (fetchedSGInfos : List SecurityGroupInfo) : Except String String :=
  match eniInfo.securityGroups with
  | [sgID] => .ok sgID
  | _ =>
    let matched := fetchedSGInfos.filter (fun info =>
      hasClusterOwnershipTag clusterName info
        && matchesTargetENISGTags selectorTags info)
    match matched with
    | [info] => .ok info.securityGroupID
    | other =>
      .error (endpointSGErrorMessage clusterName selectorTags
        eniInfo.networkInterfaceID (other.map SecurityGroupInfo.securityGroupID))

/-- A live TargetGroupBinding as seen by the garbage-collection sweep:
its identity and whether its spec declares a networking policy. -/
structure TGBInfo where
  name : NamespacedName
  hasNetworking : Bool
deriving DecidableEq, Repr

/-- Whether garbage collection may proceed: every live binding that
declares a networking policy must already have a registry entry
(behaviour pinned by the `Test_AttemptGarbageCollection` cases in which a
live binding with networking and no cache entry produces no fetch and no
reconcile calls). -/
def gcGuardOK (live : List TGBInfo) (reg : Registry) : Bool :=
  live.all (fun t => !t.hasNetworking || decide (t.name ∈ reg.map Prod.fst))

/-- The registry once entries of bindings absent from the live cluster
list are removed (spec.md §4.5 "remove the stale registry entries"). -/
def gcRegistryAfter (live : List TGBInfo) (reg : Registry) : Registry :=
  reg.filter (fun e => decide (e.1 ∈ live.map TGBInfo.name))

/-- Desired (restricted-view) permissions of one security group under a
registry state. -/
def gcDesiredForSG (reg : Registry) (sg : String) : List IPPermissionInfo :=
  restrictIngressPermissions (contributionsForSG reg sg)

/-- Result of one garbage-collection sweep: whether the cloud
security-group fetch was performed, the reconciler invocations issued
(security-group ID with the desired permission list), and the registry
left behind. -/
structure GCResult where
  fetchPerformed : Bool
  reconcileCalls : List (String × List IPPermissionInfo)
  registryAfter : Registry
deriving DecidableEq, Repr

/-- Modelled from the spec:
`defaultNetworkingManager.AttemptGarbageCollection` is not under src/ (only
`Test_AttemptGarbageCollection` is).  Reconstructed from spec.md §4.5 and
the test fixtures: if some live binding with a networking policy has no
registry entry, the sweep does nothing (no fetch, no reconcile calls).
Otherwise stale entries (bindings absent from the live list) are removed;
every security group referenced by a live-or-candidate registry entry whose
desired permission set changes is reconciled with the recomputed desired
state, and every cloud-fetched security group with no remaining desired
permissions is reconciled with an empty desired list. -/
def attemptGarbageCollection (live : List TGBInfo) (reg : Registry)
    (fetchedSGs : List String) : GCResult :=
  if gcGuardOK live reg then
    let regAfter := gcRegistryAfter live reg
    let changedSGs := (sgKeysOfRegistry reg).filter
      (fun sg => gcDesiredForSG reg sg ≠ gcDesiredForSG regAfter sg)
    let emptyFetchedSGs := fetchedSGs.filter
      (fun sg => gcDesiredForSG regAfter sg = [] ∧ sg ∉ changedSGs)
    ⟨true,
      (changedSGs ++ emptyFetchedSGs).map (fun sg => (sg, gcDesiredForSG regAfter sg)),
      regAfter⟩
  else
    ⟨false, [], reg⟩

/-! ### Concrete fixtures used by witnesses and counterexamples -/

/-- Pods of the `computeNumericalPorts` fixture "named port resolves to
different numerical port": two pods exposing "http" as 80 and as 8080. -/
def podsHTTPDifferent : List PodInfo :=
  [⟨"ns-1", "pod-1", [⟨"http", 80⟩]⟩, ⟨"ns-1", "pod-2", [⟨"http", 8080⟩]⟩]

/-- Pods of the fixture "named port resolves to same numerical port": two
pods both exposing "http" as 80. -/
def podsHTTPSame : List PodInfo :=
  [⟨"ns-1", "pod-1", [⟨"http", 80⟩]⟩, ⟨"ns-1", "pod-2", [⟨"http", 80⟩]⟩]

/-- The two peers of the "one rule / multiple peer / multiple port"
fixture. -/
def peersFixture : List NetworkingPeer :=
  [.securityGroup "sg-abcdefg", .ipBlock "192.168.1.1/16"]

/-- The two numeric ports of the "one rule / multiple peer / multiple
port" fixture. -/
def portsFixture : List NetworkingPort :=
  [⟨none, some (.int 8080)⟩, ⟨none, some (.int 8443)⟩]

/-- A TCP permission for ports 80-8080 from security group "group-1"
("single sg, single protocol" fixture). -/
def permTCP80To8080 : IPPermissionInfo :=
  ⟨"tcp", some 80, some 8080, .sg "group-1" none, []⟩

/-- A TCP permission for ports 30-8080 from security group "group-1". -/
def permTCP30To8080 : IPPermissionInfo :=
  ⟨"tcp", some 30, some 8080, .sg "group-1" none, []⟩

/-- A UDP permission for port 8443 from security group "group-2"
("multiple sg, multiple protocols" fixture). -/
def permUDP8443 : IPPermissionInfo :=
  ⟨"udp", some 8443, some 8443, .sg "group-2" none, []⟩

/-- A UDP permission for port 8080 from security group "group-2". -/
def permUDP8080 : IPPermissionInfo :=
  ⟨"udp", some 8080, some 8080, .sg "group-2" none, []⟩

/-- Registry of the "single sg, single protocol" restricted-view fixture. -/
def registryTCPOverlap : Registry :=
  [(⟨"ns-1", "tgb-1"⟩, [("sg-a", [permTCP80To8080, permTCP30To8080])])]

/-- Registry holding the two disjoint UDP ranges of the "multiple sg,
multiple protocols" fixture on security group "sg-b". -/
def registryUDPDisjoint : Registry :=
  [(⟨"ns-1", "tgb-1"⟩, [("sg-b", [permUDP8443, permUDP8080])])]

/-- A TCP port-80 permission from security group "g", contributed twice in
the duplicate-contribution garbage-collection scenario. -/
def permSharedTCP80 : IPPermissionInfo :=
  ⟨"tcp", some 80, some 80, .sg "g" none, []⟩

/-- Registry where a stale binding ns/dead and a live binding ns/live
contribute the same permission to "sg-x". -/
def registryDuplicate : Registry :=
  [(⟨"ns", "dead"⟩, [("sg-x", [permSharedTCP80])]),
   (⟨"ns", "live"⟩, [("sg-x", [permSharedTCP80])])]

/-- Live bindings of the duplicate-contribution scenario: only ns/live,
with a networking policy. -/
def liveDuplicate : List TGBInfo :=
  [⟨⟨"ns", "live"⟩, true⟩]

/-- ENI of the resolver fixtures: "eni-a" with two attached security
groups. -/
def eniFixture : ENIInfo :=
  ⟨"eni-a", ["sg-a", "sg-b"]⟩

/-- Fetched security-group snapshots of the resolver fixture "A single
security group with cluster name tag and one service target tag set". -/
def fetchedSGFixture : List SecurityGroupInfo :=
  [⟨"sg-a", [("kubernetes.io/cluster/cluster-a", "owned")]⟩,
   ⟨"sg-b", [("kubernetes.io/cluster/cluster-a", "owned"), ("keyA", "valueA"),
     ("keyB", "valueB2"), ("keyC", "valueC"), ("keyD", "valueD")]⟩]

/-- Live bindings of the `Test_AttemptGarbageCollection` case "cache
correct, tgbs present in cluster": tgb-a has a networking policy, tgb-b
does not. -/
def liveGCFixture : List TGBInfo :=
  [⟨⟨"ns-a", "tgb-a"⟩, true⟩, ⟨⟨"ns-b", "tgb-b"⟩, false⟩]

/-- Registry of the same case: an entry for tgb-a with no security
groups. -/
def registryGCFixture : Registry :=
  [(⟨"ns-a", "tgb-a"⟩, [])]

/-- The numeric value of a rule port whose spec is a numeric port. -/
def numericPortOf (po : NetworkingPort) : Option Int :=
  match po.port with
  | some (.int n) => some n
  | _ => none

/-- Whether a rule port carries a numeric (not named, not absent) port
spec. -/
def isNumericPort (po : NetworkingPort) : Bool :=
  (numericPortOf po).isSome

/-- Whether a rule peer is well-formed: security-group peers always are,
IP-block peers exactly when their CIDR parses. -/
def validPeerB (pe : NetworkingPeer) : Bool :=
  match pe with
  | .securityGroup _ => true
  | .ipBlock c => (cidrKind c).isSome

/-- The peer descriptor the permission computer attaches for a rule peer
(with the fixed provenance description); for an IP block the CIDR's parsed
kind selects IPv4 or IPv6. -/
def expectedPeerDescriptor (pe : NetworkingPeer) : IPPeer :=
  match pe with
  | .securityGroup g => .sg g (some tgbNetworkingDescription)
  | .ipBlock c =>
    match cidrKind c with
    | some .v6 => .v6 c (some tgbNetworkingDescription)
    | _ => .v4 c (some tgbNetworkingDescription)

/-- The single permission the computer produces for one peer and one
numeric rule port. -/
def expectedPermFor (pe : NetworkingPeer) (po : NetworkingPort) :
    IPPermissionInfo :=
  ⟨portProtocolString po, numericPortOf po, numericPortOf po,
    expectedPeerDescriptor pe,
    [(tgbNetworkingIPPermissionLabelKey, tgbNetworkingIPPermissionLabelValue)]⟩

/-- Registry of the mixed garbage-collection scenario: the stale binding
ns/dead is the only contributor to "sg-x", while the live binding ns/live
is the only contributor to "sg-y". -/
def registryMixed : Registry :=
  [(⟨"ns", "dead"⟩, [("sg-x", [permSharedTCP80])]),
   (⟨"ns", "live"⟩, [("sg-y", [permTCP80To8080])])]

/-- Live bindings of the mixed garbage-collection scenario: only ns/live,
with a networking policy and a registry entry. -/
def liveMixed : List TGBInfo :=
  [⟨⟨"ns", "live"⟩, true⟩]

/-! ### Helper lemmas -/

theorem firstSeenDedupAux_mem (x : Int) :
    ∀ (l seen : List Int), x ∈ firstSeenDedupAux seen l ↔ x ∈ l ∧ x ∉ seen := by
  intro l
  induction l with
  | nil => intro seen; simp [firstSeenDedupAux]
  | cons y ys ih =>
    intro seen
    by_cases hy : y ∈ seen
    · simp only [firstSeenDedupAux, if_pos hy, ih, List.mem_cons]
      constructor
      · rintro ⟨h, hn⟩
        exact ⟨Or.inr h, hn⟩
      · rintro ⟨h | h, hn⟩
        · exact absurd (h ▸ hy) hn
        · exact ⟨h, hn⟩
    · simp only [firstSeenDedupAux, if_neg hy, List.mem_cons, ih]
      constructor
      · rintro (rfl | ⟨h, hn⟩)
        · exact ⟨Or.inl rfl, hy⟩
        · exact ⟨Or.inr h, fun hc => hn (Or.inr hc)⟩
      · rintro ⟨h | h, hn⟩
        · exact Or.inl h
        · by_cases hxy : x = y
          · exact Or.inl hxy
          · exact Or.inr ⟨h, by simp [List.mem_cons, hxy, hn]⟩

theorem firstSeenDedupAux_nodup :
    ∀ (l seen : List Int), (firstSeenDedupAux seen l).Nodup := by
  intro l
  induction l with
  | nil => intro seen; simp [firstSeenDedupAux]
  | cons y ys ih =>
    intro seen
    by_cases hy : y ∈ seen
    · simpa [firstSeenDedupAux, hy] using ih seen
    · simp only [firstSeenDedupAux, if_neg hy, List.nodup_cons]
      refine ⟨fun hc => ?_, ih _⟩
      rw [firstSeenDedupAux_mem] at hc
      exact hc.2 (List.mem_cons_self _ _)

theorem firstSeenDedupAux_sublist :
    ∀ (l seen : List Int), (firstSeenDedupAux seen l).Sublist l := by
  intro l
  induction l with
  | nil => intro seen; simp [firstSeenDedupAux]
  | cons y ys ih =>
    intro seen
    by_cases hy : y ∈ seen
    · simp only [firstSeenDedupAux, if_pos hy]
      exact (ih seen).trans (List.sublist_cons_self y ys)
    · simp only [firstSeenDedupAux, if_neg hy]
      exact List.Sublist.cons₂ y (ih (y :: seen))

theorem firstSeenDedup_mem (x : Int) (l : List Int) :
    x ∈ firstSeenDedup l ↔ x ∈ l := by
  simp [firstSeenDedup, firstSeenDedupAux_mem]

theorem firstSeenDedup_nodup (l : List Int) : (firstSeenDedup l).Nodup :=
  firstSeenDedupAux_nodup l []

theorem firstSeenDedup_sublist (l : List Int) : (firstSeenDedup l).Sublist l :=
  firstSeenDedupAux_sublist l []

theorem alookup_eq_some_mem {κ β : Type} [DecidableEq κ] {k : κ} {v : β} :
    ∀ {l : List (κ × β)}, alookup k l = some v → (k, v) ∈ l := by
  intro l
  induction l with
  | nil => intro h; simp [alookup] at h
  | cons e es ih =>
    obtain ⟨k', v'⟩ := e
    intro h
    by_cases hk : k' = k
    · subst hk
      simp [alookup] at h
      subst h
      exact List.mem_cons_self _ _
    · simp only [alookup, if_neg hk] at h
      exact List.mem_cons_of_mem _ (ih h)

theorem alookup_map_self {β : Type} (f : String → β) (s : String) :
    ∀ keys : List String, s ∈ keys →
      alookup s (keys.map (fun k => (k, f k))) = some (f s) := by
  intro keys
  induction keys with
  | nil => intro h; simp at h
  | cons k ks ih =>
    intro h
    by_cases hk : k = s
    · subst hk
      simp [alookup]
    · rcases List.mem_cons.1 h with h' | h'
      · exact absurd h'.symm hk
      · simpa [alookup, hk] using ih h'

theorem alookup_map_not_mem {β : Type} (f : String → β) (s : String) :
    ∀ keys : List String, s ∉ keys →
      alookup s (keys.map (fun k => (k, f k))) = none := by
  intro keys
  induction keys with
  | nil => intro _; rfl
  | cons k ks ih =>
    intro h
    have hk : k ≠ s := fun he => h (he ▸ List.mem_cons_self _ _)
    have hks : s ∉ ks := fun hm => h (List.mem_cons_of_mem _ hm)
    simpa [alookup, hk] using ih hks

theorem sgKeysOfRegistry_iff {reg : Registry} {sg : String} :
    sg ∈ sgKeysOfRegistry reg ↔ ∃ e ∈ reg, sg ∈ e.2.map Prod.fst := by
  simp [sgKeysOfRegistry, List.mem_dedup, List.mem_flatMap]

theorem mem_contributionsForSG {reg : Registry} {b : NamespacedName}
    {m : SGPermMap} {sg : String} {l : List IPPermissionInfo}
    {p : IPPermissionInfo} (hb : (b, m) ∈ reg) (hl : alookup sg m = some l)
    (hp : p ∈ l) : p ∈ contributionsForSG reg sg := by
  refine List.mem_flatMap.2 ⟨(b, m), hb, ?_⟩
  simpa [hl] using hp

theorem foldl_min_le_init {α : Type} (f : α → Int) :
    ∀ (l : List α) (a : Int), l.foldl (fun acc q => min acc (f q)) a ≤ a := by
  intro l
  induction l with
  | nil => intro a; exact le_refl a
  | cons x xs ih =>
    intro a
    exact le_trans (ih (min a (f x))) (min_le_left _ _)

theorem foldl_min_le_mem {α : Type} (f : α → Int) {x : α} :
    ∀ (l : List α) (a : Int), x ∈ l →
      l.foldl (fun acc q => min acc (f q)) a ≤ f x := by
  intro l
  induction l with
  | nil => intro a h; simp at h
  | cons y ys ih =>
    intro a h
    rcases List.mem_cons.1 h with h' | h'
    · subst h'
      exact le_trans (foldl_min_le_init f ys (min a (f x))) (min_le_right _ _)
    · exact ih (min a (f y)) h'

theorem le_foldl_max_init {α : Type} (f : α → Int) :
    ∀ (l : List α) (a : Int), a ≤ l.foldl (fun acc q => max acc (f q)) a := by
  intro l
  induction l with
  | nil => intro a; exact le_refl a
  | cons x xs ih =>
    intro a
    exact le_trans (le_max_left _ _) (ih (max a (f x)))

theorem le_foldl_max_mem {α : Type} (f : α → Int) {x : α} :
    ∀ (l : List α) (a : Int), x ∈ l →
      f x ≤ l.foldl (fun acc q => max acc (f q)) a := by
  intro l
  induction l with
  | nil => intro a h; simp at h
  | cons y ys ih =>
    intro a h
    rcases List.mem_cons.1 h with h' | h'
    · subst h'
      exact le_trans (le_max_right _ _) (le_foldl_max_init f ys (max a (f x)))
    · exact ih (max a (f y)) h'

theorem mergePermGroup_cons_spec (p : IPPermissionInfo)
    (rest : List IPPermissionInfo) :
    ∃ q, mergePermGroup (p :: rest) = some q ∧ q.ipProtocol = p.ipProtocol ∧
      q.peer = p.peer ∧ q.labels = [] ∧
      ∃ qf qt, q.fromPort = some qf ∧ q.toPort = some qt ∧
        ∀ r ∈ p :: rest, qf ≤ normFromPort r ∧ normToPort r ≤ qt := by
  refine ⟨_, rfl, rfl, rfl, rfl, _, _, rfl, rfl, ?_⟩
  intro r hr
  rcases List.mem_cons.1 hr with h' | h'
  · subst h'
    exact ⟨foldl_min_le_init normFromPort rest _, le_foldl_max_init normToPort rest _⟩
  · exact ⟨foldl_min_le_mem normFromPort rest _ h', le_foldl_max_mem normToPort rest _ h'⟩

theorem permGroupKey_mem_keys {ps : List IPPermissionInfo}
    {p : IPPermissionInfo} (hp : p ∈ ps) : permGroupKey p ∈ permGroupKeys ps :=
  List.mem_dedup.2 (List.mem_map_of_mem _ hp)

theorem mem_permsForGroupKey_self {ps : List IPPermissionInfo}
    {p : IPPermissionInfo} (hp : p ∈ ps) :
    p ∈ permsForGroupKey ps (permGroupKey p) :=
  List.mem_filter.2 ⟨hp, by simp⟩

theorem permGroupKey_of_mem_group {ps : List IPPermissionInfo}
    {K : String × PeerIdent} {p : IPPermissionInfo}
    (hp : p ∈ permsForGroupKey ps K) : permGroupKey p = K := by
  have h := List.of_mem_filter hp
  exact of_decide_eq_true h

theorem mergePermGroup_key {ps : List IPPermissionInfo} {K : String × PeerIdent}
    {q : IPPermissionInfo}
    (h : mergePermGroup (permsForGroupKey ps K) = some q) : permGroupKey q = K := by
  rcases hg : permsForGroupKey ps K with _ | ⟨p, rest⟩
  · rw [hg] at h
    simp [mergePermGroup] at h
  · rw [hg] at h
    simp only [mergePermGroup, Option.some.injEq] at h
    have hkey : permGroupKey p = K :=
      permGroupKey_of_mem_group (hg ▸ List.mem_cons_self p rest)
    rw [← h, ← hkey]
    rfl

theorem mem_restrictIngressPermissions {ps : List IPPermissionInfo}
    {K : String × PeerIdent} {q : IPPermissionInfo} (hK : K ∈ permGroupKeys ps)
    (h : mergePermGroup (permsForGroupKey ps K) = some q) :
    q ∈ restrictIngressPermissions ps :=
  List.mem_filterMap.2 ⟨K, hK, h⟩

theorem restrictIngressPermissions_mem_inv {ps : List IPPermissionInfo}
    {r : IPPermissionInfo} (hr : r ∈ restrictIngressPermissions ps) :
    ∃ K ∈ permGroupKeys ps, mergePermGroup (permsForGroupKey ps K) = some r :=
  List.mem_filterMap.1 hr

theorem restrictIngressPermissions_ne_nil {ps : List IPPermissionInfo}
    (h : ps ≠ []) : restrictIngressPermissions ps ≠ [] := by
  rcases ps with _ | ⟨p, rest⟩
  · exact absurd rfl h
  · have hK : permGroupKey p ∈ permGroupKeys (p :: rest) :=
      permGroupKey_mem_keys (List.mem_cons_self p rest)
    have hpin : p ∈ permsForGroupKey (p :: rest) (permGroupKey p) :=
      mem_permsForGroupKey_self (List.mem_cons_self p rest)
    rcases hg : permsForGroupKey (p :: rest) (permGroupKey p) with _ | ⟨p', rest'⟩
    · rw [hg] at hpin; simp at hpin
    · obtain ⟨q, hq, -⟩ := mergePermGroup_cons_spec p' rest'
      have hmem : q ∈ restrictIngressPermissions (p :: rest) :=
        mem_restrictIngressPermissions hK (hg ▸ hq)
      exact List.ne_nil_of_mem hmem

theorem restrictIngressPermissions_nil : restrictIngressPermissions [] = [] := rfl

theorem contributionsForSG_filter {pred : NamespacedName × SGPermMap → Bool} :
    ∀ (reg : Registry) (sg : String),
      (∀ e ∈ reg, pred e = false →
        (alookup sg e.2).getD [] = ([] : List IPPermissionInfo)) →
      contributionsForSG (reg.filter pred) sg = contributionsForSG reg sg := by
  intro reg
  induction reg with
  | nil => intro sg _; rfl
  | cons e es ih =>
    intro sg hdrop
    rcases hp : pred e with _ | _
    · have he : (alookup sg e.2).getD [] = ([] : List IPPermissionInfo) :=
        hdrop e (List.mem_cons_self _ _) hp
      simp only [contributionsForSG, List.filter_cons, hp, Bool.false_eq_true,
        if_false, List.flatMap_cons, he, List.nil_append]
      exact ih sg (fun e' he' hp' => hdrop e' (List.mem_cons_of_mem _ he') hp')
    · simp only [contributionsForSG, List.filter_cons, hp, if_true,
        List.flatMap_cons]
      rw [show (es.filter pred).flatMap (fun e => (alookup sg e.2).getD []) =
          contributionsForSG (es.filter pred) sg from rfl,
        ih sg (fun e' he' hp' => hdrop e' (List.mem_cons_of_mem _ he') hp')]
      rfl

theorem exceptMapM_ok {α β : Type} (f : α → Except String β) (g : α → β) :
    ∀ l : List α, (∀ x ∈ l, f x = .ok (g x)) → l.mapM f = .ok (l.map g) := by
  intro l
  induction l with
  | nil => intro _; rfl
  | cons x xs ih =>
    intro h
    rw [List.mapM_cons, h x (List.mem_cons_self _ _),
      ih (fun y hy => h y (List.mem_cons_of_mem _ hy))]
    rfl

theorem flatten_map_singleton {α β : Type} (f : α → β) :
    ∀ l : List α, (l.map (fun x => [f x])).flatten = l.map f := by
  intro l
  induction l with
  | nil => rfl
  | cons x xs ih => simp [ih]

theorem length_flatMap_map_inner {α β γ : Type} (g : α → β → γ) :
    ∀ (l : List α) (l' : List β),
      (l.flatMap (fun a => l'.map (g a))).length = l.length * l'.length := by
  intro l l'
  induction l with
  | nil => simp
  | cons x xs ih =>
    simp only [List.flatMap_cons, List.length_append, List.length_map, ih,
      List.length_cons, Nat.succ_mul, Nat.add_comm]

theorem contributionsForSG_perm {reg reg' : Registry} (h : reg.Perm reg')
    (sg : String) :
    (contributionsForSG reg sg).Perm (contributionsForSG reg' sg) :=
  h.flatMap_right _

theorem sgKeysOfRegistry_perm_mem {reg reg' : Registry} (h : reg.Perm reg')
    {sg : String} :
    sg ∈ sgKeysOfRegistry reg ↔ sg ∈ sgKeysOfRegistry reg' := by
  rw [sgKeysOfRegistry_iff, sgKeysOfRegistry_iff]
  constructor
  · rintro ⟨e, he, hsg⟩
    exact ⟨e, h.mem_iff.1 he, hsg⟩
  · rintro ⟨e, he, hsg⟩
    exact ⟨e, h.mem_iff.2 he, hsg⟩

/-! ### Claim theorems -/

/-- C7: for every named (string) port spec, `computeNumericalPorts` invoked
with an empty (or nil) pod list fails, and the error message is exactly
"named ports can only be used with pod endpoints". -/
theorem named_port_without_pods_fails (s : String) :
    computeNumericalPorts (.str s) [] =
      .error "named ports can only be used with pod endpoints" := rfl

/-- C8: for every named port spec and non-empty pod list,
`computeNumericalPorts` succeeds with the set of all numeric container
ports that any pod exposes under that name, in first-seen order with
duplicates removed (membership is exactly the exposed ports, the list has
no duplicates, and it is an order-preserving sublist of the raw first-seen
collection); in particular pods exposing "http" as 80 and as 8080 yield
[80, 8080], while two pods both exposing "http" as 80 yield [80]. -/
theorem named_port_resolves_all_pod_ports (s : String) (pods : List PodInfo)
    (h : pods ≠ []) :
    (∃ l, computeNumericalPorts (.str s) pods = .ok l ∧
      (∀ n : Int, n ∈ l ↔ ∃ pod ∈ pods, ∃ cp ∈ pod.containerPorts,
        cp.name = s ∧ cp.port = n) ∧
      l.Nodup ∧ l.Sublist (pods.flatMap (podPortsForName s))) ∧
    computeNumericalPorts (.str "http") podsHTTPDifferent = .ok [80, 8080] ∧
    computeNumericalPorts (.str "http") podsHTTPSame = .ok [80] := by
  refine ⟨?_, rfl, rfl⟩
  have hne : pods.isEmpty = false := by
    cases pods
    · exact absurd rfl h
    · rfl
  refine ⟨firstSeenDedup (pods.flatMap (podPortsForName s)), ?_, ?_,
    firstSeenDedup_nodup _, firstSeenDedup_sublist _⟩
  · simp [computeNumericalPorts, hne]
  · intro n
    rw [firstSeenDedup_mem]
    simp only [List.mem_flatMap, podPortsForName, List.mem_filterMap]
    constructor
    · rintro ⟨pod, hpod, cp, hcp, hif⟩
      by_cases hname : cp.name = s
      · rw [if_pos hname] at hif
        exact ⟨pod, hpod, cp, hcp, hname, Option.some.inj hif⟩
      · rw [if_neg hname] at hif
        exact absurd hif (by simp)
    · rintro ⟨pod, hpod, cp, hcp, hname, hport⟩
      exact ⟨pod, hpod, cp, hcp, by rw [if_pos hname, hport]⟩

/-- Witness for C8: the theorem applied to the "http" pods exposing 80 and
8080. -/
theorem named_port_resolves_all_pod_ports_witness :
    podsHTTPDifferent ≠ [] ∧
    ((∃ l, computeNumericalPorts (.str "http") podsHTTPDifferent = .ok l ∧
      (∀ n : Int, n ∈ l ↔ ∃ pod ∈ podsHTTPDifferent,
        ∃ cp ∈ pod.containerPorts, cp.name = "http" ∧ cp.port = n) ∧
      l.Nodup ∧ l.Sublist (podsHTTPDifferent.flatMap (podPortsForName "http"))) ∧
    computeNumericalPorts (.str "http") podsHTTPDifferent = .ok [80, 8080] ∧
    computeNumericalPorts (.str "http") podsHTTPSame = .ok [80]) :=
  ⟨by decide, named_port_resolves_all_pod_ports "http" podsHTTPDifferent (by decide)⟩

/-- C1: for every registry state, every binding (b, m) present in it, every
security group s and every permission p in b's list for s, the aggregated
desired state for s never silently drops p — p occurs in the unrestricted
view for s, and the restricted view for s contains an entry with the same
protocol and the same peer identity whose port range covers p's
(normalized) port range. -/
theorem aggregator_never_drops_contribution (reg : Registry)
    (b : NamespacedName) (m : SGPermMap) (s : String)
    (l : List IPPermissionInfo) (p : IPPermissionInfo)
    (hb : (b, m) ∈ reg) (hl : alookup s m = some l) (hp : p ∈ l) :
    (∃ ul, alookup s (computeUnrestrictedIngressPermissionsPerSG reg) = some ul
      ∧ p ∈ ul) ∧
    (∃ q ∈ (alookup s (computeRestrictedIngressPermissionsPerSG reg)).getD [],
      q.ipProtocol = p.ipProtocol ∧ peerIdentOf q.peer = peerIdentOf p.peer ∧
      ∃ qf qt, q.fromPort = some qf ∧ q.toPort = some qt ∧
        qf ≤ normFromPort p ∧ normToPort p ≤ qt) := by
  have hsmem : s ∈ sgKeysOfRegistry reg := by
    rw [sgKeysOfRegistry_iff]
    exact ⟨(b, m), hb, List.mem_map.2 ⟨(s, l), alookup_eq_some_mem hl, rfl⟩⟩
  have hpc : p ∈ contributionsForSG reg s := mem_contributionsForSG hb hl hp
  constructor
  · exact ⟨contributionsForSG reg s, alookup_map_self _ _ _ hsmem, hpc⟩
  · have hlook : alookup s (computeRestrictedIngressPermissionsPerSG reg)
        = some (restrictIngressPermissions (contributionsForSG reg s)) :=
      alookup_map_self _ _ _ hsmem
    rw [hlook]
    have hK : permGroupKey p ∈ permGroupKeys (contributionsForSG reg s) :=
      permGroupKey_mem_keys hpc
    have hpg : p ∈ permsForGroupKey (contributionsForSG reg s) (permGroupKey p) :=
      mem_permsForGroupKey_self hpc
    rcases hg : permsForGroupKey (contributionsForSG reg s) (permGroupKey p)
      with _ | ⟨p0, rest⟩
    · rw [hg] at hpg
      simp at hpg
    · obtain ⟨q, hq, hproto, hpeer, -, qf, qt, hqf, hqt, hbounds⟩ :=
        mergePermGroup_cons_spec p0 rest
      have hqmem : q ∈ restrictIngressPermissions (contributionsForSG reg s) :=
        mem_restrictIngressPermissions hK (hg ▸ hq)
      have hkey0 : permGroupKey p0 = permGroupKey p :=
        permGroupKey_of_mem_group (hg ▸ List.mem_cons_self p0 rest)
      have hfst : p0.ipProtocol = p.ipProtocol := congrArg Prod.fst hkey0
      have hsnd : peerIdentOf p0.peer = peerIdentOf p.peer :=
        congrArg Prod.snd hkey0
      refine ⟨q, by simpa using hqmem, ?_, ?_, qf, qt, hqf, hqt, ?_, ?_⟩
      · rw [hproto]
        exact hfst
      · rw [hpeer]
        exact hsnd
      · exact (hbounds p (hg ▸ hpg)).1
      · exact (hbounds p (hg ▸ hpg)).2

/-- Witness for C1: the theorem applied to the "single sg, single protocol"
fixture at the 80-8080 permission. -/
theorem aggregator_never_drops_contribution_witness :
    ((⟨"ns-1", "tgb-1"⟩, [("sg-a", [permTCP80To8080, permTCP30To8080])])
        ∈ registryTCPOverlap) ∧
    (alookup "sg-a" [("sg-a", [permTCP80To8080, permTCP30To8080])]
        = some [permTCP80To8080, permTCP30To8080]) ∧
    permTCP80To8080 ∈ [permTCP80To8080, permTCP30To8080] ∧
    ((∃ ul, alookup "sg-a"
        (computeUnrestrictedIngressPermissionsPerSG registryTCPOverlap) = some ul
      ∧ permTCP80To8080 ∈ ul) ∧
    (∃ q ∈ (alookup "sg-a"
        (computeRestrictedIngressPermissionsPerSG registryTCPOverlap)).getD [],
      q.ipProtocol = permTCP80To8080.ipProtocol ∧
      peerIdentOf q.peer = peerIdentOf permTCP80To8080.peer ∧
      ∃ qf qt, q.fromPort = some qf ∧ q.toPort = some qt ∧
        qf ≤ normFromPort permTCP80To8080 ∧
        normToPort permTCP80To8080 ≤ qt)) :=
  ⟨by decide, by decide, by decide,
    aggregator_never_drops_contribution registryTCPOverlap ⟨"ns-1", "tgb-1"⟩
      [("sg-a", [permTCP80To8080, permTCP30To8080])] "sg-a"
      [permTCP80To8080, permTCP30To8080] permTCP80To8080
      (by decide) (by decide) (by decide)⟩

/-- C4: `computeUnrestrictedIngressPermissionsPerSG` of an empty (or nil)
registry is an empty mapping; of a non-empty registry its keys are exactly
the security-group IDs referenced by some binding, each mapped to the
concatenation of every binding's permission list for that group, and the
unordered content of each merged list is independent of binding iteration
order. -/
theorem unrestricted_view_spec (reg reg' : Registry) (sg : String)
    (hperm : reg.Perm reg') :
    computeUnrestrictedIngressPermissionsPerSG ([] : Registry) = [] ∧
    (sg ∈ (computeUnrestrictedIngressPermissionsPerSG reg).map Prod.fst ↔
      ∃ e ∈ reg, sg ∈ e.2.map Prod.fst) ∧
    (sg ∈ sgKeysOfRegistry reg →
      alookup sg (computeUnrestrictedIngressPermissionsPerSG reg) =
        some (reg.flatMap (fun e => (alookup sg e.2).getD []))) ∧
    ((alookup sg (computeUnrestrictedIngressPermissionsPerSG reg)).getD []).Perm
      ((alookup sg (computeUnrestrictedIngressPermissionsPerSG reg')).getD []) := by
  refine ⟨rfl, ?_, ?_, ?_⟩
  · have hkeys : (computeUnrestrictedIngressPermissionsPerSG reg).map Prod.fst
        = sgKeysOfRegistry reg := by
      simp only [computeUnrestrictedIngressPermissionsPerSG, List.map_map]
      exact List.map_id _
    rw [hkeys, sgKeysOfRegistry_iff]
  · intro hs
    exact alookup_map_self _ _ _ hs
  · by_cases hs : sg ∈ sgKeysOfRegistry reg
    · have hs' : sg ∈ sgKeysOfRegistry reg' :=
        (sgKeysOfRegistry_perm_mem hperm).1 hs
      simp only [computeUnrestrictedIngressPermissionsPerSG]
      rw [alookup_map_self _ _ _ hs, alookup_map_self _ _ _ hs']
      simpa using contributionsForSG_perm hperm sg
    · have hs' : sg ∉ sgKeysOfRegistry reg' := fun hc =>
        hs ((sgKeysOfRegistry_perm_mem hperm).2 hc)
      simp only [computeUnrestrictedIngressPermissionsPerSG]
      rw [alookup_map_not_mem _ _ _ hs, alookup_map_not_mem _ _ _ hs']

/-- Witness for C4: the theorem applied to a two-binding registry and its
reversal, at security group "sg-a". -/
theorem unrestricted_view_spec_witness :
    ([(⟨"ns-1", "tgb-1"⟩, [("sg-a", [permTCP80To8080])]),
      (⟨"ns-1", "tgb-2"⟩, [("sg-a", [permTCP30To8080])])] : Registry).Perm
      [(⟨"ns-1", "tgb-2"⟩, [("sg-a", [permTCP30To8080])]),
       (⟨"ns-1", "tgb-1"⟩, [("sg-a", [permTCP80To8080])])] ∧
    (computeUnrestrictedIngressPermissionsPerSG ([] : Registry) = [] ∧
    ("sg-a" ∈ (computeUnrestrictedIngressPermissionsPerSG
        [(⟨"ns-1", "tgb-1"⟩, [("sg-a", [permTCP80To8080])]),
         (⟨"ns-1", "tgb-2"⟩, [("sg-a", [permTCP30To8080])])]).map Prod.fst ↔
      ∃ e ∈ ([(⟨"ns-1", "tgb-1"⟩, [("sg-a", [permTCP80To8080])]),
        (⟨"ns-1", "tgb-2"⟩, [("sg-a", [permTCP30To8080])])] : Registry),
        "sg-a" ∈ e.2.map Prod.fst) ∧
    ("sg-a" ∈ sgKeysOfRegistry
        [(⟨"ns-1", "tgb-1"⟩, [("sg-a", [permTCP80To8080])]),
         (⟨"ns-1", "tgb-2"⟩, [("sg-a", [permTCP30To8080])])] →
      alookup "sg-a" (computeUnrestrictedIngressPermissionsPerSG
        [(⟨"ns-1", "tgb-1"⟩, [("sg-a", [permTCP80To8080])]),
         (⟨"ns-1", "tgb-2"⟩, [("sg-a", [permTCP30To8080])])]) =
        some (([(⟨"ns-1", "tgb-1"⟩, [("sg-a", [permTCP80To8080])]),
          (⟨"ns-1", "tgb-2"⟩, [("sg-a", [permTCP30To8080])])] : Registry).flatMap
          (fun e => (alookup "sg-a" e.2).getD []))) ∧
    ((alookup "sg-a" (computeUnrestrictedIngressPermissionsPerSG
        [(⟨"ns-1", "tgb-1"⟩, [("sg-a", [permTCP80To8080])]),
         (⟨"ns-1", "tgb-2"⟩, [("sg-a", [permTCP30To8080])])])).getD []).Perm
      ((alookup "sg-a" (computeUnrestrictedIngressPermissionsPerSG
        [(⟨"ns-1", "tgb-2"⟩, [("sg-a", [permTCP30To8080])]),
         (⟨"ns-1", "tgb-1"⟩, [("sg-a", [permTCP80To8080])])])).getD [])) :=
  ⟨by decide, unrestricted_view_spec _ _ "sg-a" (by decide)⟩

/-- Counterexample to C3: on the "multiple sg, multiple protocols" fixture
the two disjoint, non-adjacent UDP ranges 8443-8443 and 8080-8080 on
"sg-b" collapse into the single range 8080-8443, which covers port 8100
although no input range does — so the restricted view is not the minimal
set of ranges covering the same ports. -/
theorem restricted_view_not_interval_merge_counterexample :
    computeRestrictedIngressPermissionsPerSG registryUDPDisjoint =
      [("sg-b", [⟨"udp", some 8080, some 8443, .sg "group-2" none, []⟩])] ∧
    (∀ p ∈ contributionsForSG registryUDPDisjoint "sg-b",
      ¬(normFromPort p ≤ 8100 ∧ (8100 : Int) ≤ normToPort p)) ∧
    ((8080 : Int) ≤ 8100 ∧ (8100 : Int) ≤ 8443) :=
  ⟨by decide, by decide, by decide⟩

/-- C3 (amended): `computeRestrictedIngressPermissionsPerSG` groups each
security group's permissions by (protocol, peer identity), normalizes
entries with no explicit port range to 0-65535, and collapses each group
into a single entry spanning the minimum FromPort to the maximum ToPort of
the group (which may cover ports absent from every input range); in
particular, for any registry containing (tcp,80-8080,group-1) and
(tcp,30-8080,group-1) on the same security group, the output for that group
is the single entry (tcp,30-8080,group-1). -/
theorem restricted_view_minmax_collapse (reg : Registry) (sg : String)
    (K : String × PeerIdent)
    (hK : K ∈ permGroupKeys (contributionsForSG reg sg)) :
    (∃ q, mergePermGroup (permsForGroupKey (contributionsForSG reg sg) K)
        = some q ∧
      q ∈ restrictIngressPermissions (contributionsForSG reg sg) ∧
      (∀ r ∈ restrictIngressPermissions (contributionsForSG reg sg),
        permGroupKey r = K → r = q) ∧
      ∃ qf qt, q.fromPort = some qf ∧ q.toPort = some qt ∧
        ∀ p ∈ permsForGroupKey (contributionsForSG reg sg) K,
          qf ≤ normFromPort p ∧ normToPort p ≤ qt) ∧
    computeRestrictedIngressPermissionsPerSG registryTCPOverlap =
      [("sg-a", [⟨"tcp", some 30, some 8080, .sg "group-1" none, []⟩])] := by
  refine ⟨?_, by decide⟩
  have hKg : ∃ p ∈ contributionsForSG reg sg, permGroupKey p = K := by
    simpa [permGroupKeys, List.mem_dedup, List.mem_map] using hK
  obtain ⟨p, hpc, hpk⟩ := hKg
  have hpg : p ∈ permsForGroupKey (contributionsForSG reg sg) K := by
    rw [← hpk]
    exact mem_permsForGroupKey_self hpc
  rcases hg : permsForGroupKey (contributionsForSG reg sg) K with _ | ⟨p0, rest⟩
  · rw [hg] at hpg
    simp at hpg
  · obtain ⟨q, hq, -, -, -, qf, qt, hqf, hqt, hbounds⟩ :=
      mergePermGroup_cons_spec p0 rest
    refine ⟨q, hg ▸ hq, mem_restrictIngressPermissions hK (hg ▸ hq), ?_,
      qf, qt, hqf, hqt, ?_⟩
    · intro r hr hrk
      obtain ⟨K', hK', hK'm⟩ := restrictIngressPermissions_mem_inv hr
      have hKK : K' = K := by
        rw [← hrk]
        exact (mergePermGroup_key hK'm).symm
      subst hKK
      exact Option.some.inj (hK'm.symm.trans (hg ▸ hq))
    · intro r hrg
      exact hbounds r hrg

/-- Witness for C3 (amended): the theorem applied at the UDP fixture's
group key (udp, group-2) on "sg-b". -/
theorem restricted_view_minmax_collapse_witness :
    (("udp", PeerIdent.sg "group-2")
        ∈ permGroupKeys (contributionsForSG registryUDPDisjoint "sg-b")) ∧
    ((∃ q, mergePermGroup (permsForGroupKey
          (contributionsForSG registryUDPDisjoint "sg-b")
          ("udp", PeerIdent.sg "group-2")) = some q ∧
      q ∈ restrictIngressPermissions
        (contributionsForSG registryUDPDisjoint "sg-b") ∧
      (∀ r ∈ restrictIngressPermissions
          (contributionsForSG registryUDPDisjoint "sg-b"),
        permGroupKey r = ("udp", PeerIdent.sg "group-2") → r = q) ∧
      ∃ qf qt, q.fromPort = some qf ∧ q.toPort = some qt ∧
        ∀ p ∈ permsForGroupKey (contributionsForSG registryUDPDisjoint "sg-b")
            ("udp", PeerIdent.sg "group-2"),
          qf ≤ normFromPort p ∧ normToPort p ≤ qt) ∧
    computeRestrictedIngressPermissionsPerSG registryTCPOverlap =
      [("sg-a", [⟨"tcp", some 30, some 8080, .sg "group-1" none, []⟩])]) :=
  ⟨by decide, restricted_view_minmax_collapse registryUDPDisjoint "sg-b"
    ("udp", PeerIdent.sg "group-2") (by decide)⟩

/-- Counterexample to C6: a policy with one rule, one peer and one numeric
port spec whose peer carries a malformed CIDR makes
`computeIngressPermissionsForTGBNetworking` fail instead of yielding
1*1 = 1 permissions. -/
theorem compute_ingress_malformed_cidr_counterexample :
    computeIngressPermissionsForTGBNetworking
      ⟨[⟨[.ipBlock "oops"], [⟨none, some (.int 80)⟩]⟩]⟩ [] =
      .error "invalid CIDR address: oops" ∧
    ∀ out, computeIngressPermissionsForTGBNetworking
      ⟨[⟨[.ipBlock "oops"], [⟨none, some (.int 80)⟩]⟩]⟩ [] ≠ .ok out := by
  refine ⟨rfl, ?_⟩
  intro out h
  exact Except.noConfusion
    ((rfl : computeIngressPermissionsForTGBNetworking
      ⟨[⟨[.ipBlock "oops"], [⟨none, some (.int 80)⟩]⟩]⟩ [] =
      .error "invalid CIDR address: oops").symm.trans h)

/-- C6 (amended): for every policy of one rule with m well-formed peers
(security groups or parseable CIDR blocks) and n numeric port specs,
`computeIngressPermissionsForTGBNetworking` yields exactly the m*n
permissions of the peer-major, port-minor cross product (outer rule order,
then peer order, then port order), and every returned permission carries
the fixed provenance label. -/
theorem compute_ingress_cross_product (peers : List NetworkingPeer)
    (ports : List NetworkingPort) (pods : List PodInfo)
    (hports : ports.all isNumericPort = true)
    (hpeers : peers.all validPeerB = true) :
    computeIngressPermissionsForTGBNetworking ⟨[⟨peers, ports⟩]⟩ pods =
      .ok (peers.flatMap (fun pe => ports.map (fun po => expectedPermFor pe po))) ∧
    (peers.flatMap (fun pe => ports.map (fun po => expectedPermFor pe po))).length
      = peers.length * ports.length ∧
    ∀ q ∈ peers.flatMap (fun pe => ports.map (fun po => expectedPermFor pe po)),
      q.labels = [(tgbNetworkingIPPermissionLabelKey,
        tgbNetworkingIPPermissionLabelValue)] := by
  refine ⟨?_, length_flatMap_map_inner _ _ _, ?_⟩
  · have hone : ∀ pe ∈ peers, ∀ po ∈ ports,
        computePermissionsForPeerPort pe po pods = .ok [expectedPermFor pe po] := by
      intro pe hpe po hpo
      have hnum := List.all_eq_true.1 hports po hpo
      have hval := List.all_eq_true.1 hpeers pe hpe
      obtain ⟨n, hn⟩ : ∃ n, po.port = some (.int n) := by
        simp only [isNumericPort, numericPortOf] at hnum
        rcases hpp : po.port with _ | sp
        · rw [hpp] at hnum
          simp at hnum
        · rcases sp with n | s'
          · exact ⟨n, rfl⟩
          · rw [hpp] at hnum
            simp at hnum
      have hmk : mkPermissionForPeer (portProtocolString po) n n pe
          = .ok (expectedPermFor pe po) := by
        rcases pe with g | c
        · simp [mkPermissionForPeer, expectedPermFor, expectedPeerDescriptor,
            numericPortOf, hn]
        · simp only [validPeerB] at hval
          rcases hck : cidrKind c with _ | k
          · rw [hck] at hval
            simp at hval
          · rcases k with _ | _
            · simp [mkPermissionForPeer, expectedPermFor,
                expectedPeerDescriptor, numericPortOf, hn, hck]
            · simp [mkPermissionForPeer, expectedPermFor,
                expectedPeerDescriptor, numericPortOf, hn, hck]
      have hsing : [n].mapM
          (fun k => mkPermissionForPeer (portProtocolString po) k k pe)
          = .ok [expectedPermFor pe po] := by
        have hsteps : ∀ x ∈ [n],
            mkPermissionForPeer (portProtocolString po) x x pe
              = .ok (expectedPermFor pe po) := by
          intro x hx
          have hxn : x = n := by simpa using hx
          rw [hxn]
          exact hmk
        simpa using exceptMapM_ok
          (fun k => mkPermissionForPeer (portProtocolString po) k k pe)
          (fun _ => expectedPermFor pe po) [n] hsteps
      simp only [computePermissionsForPeerPort, hn]
      exact hsing
    have hpeersMapM : peers.mapM (fun pe => do
        let perPort ← ports.mapM
          (fun po => computePermissionsForPeerPort pe po pods)
        pure perPort.flatten) =
        .ok (peers.map (fun pe => ports.map (fun po => expectedPermFor pe po))) := by
      apply exceptMapM_ok
      intro pe hpe
      rw [exceptMapM_ok _ (fun po => [expectedPermFor pe po]) ports (hone pe hpe)]
      simp [flatten_map_singleton]
    simp only [computeIngressPermissionsForTGBNetworking, List.mapM_cons,
      List.mapM_nil, hpeersMapM]
    simp [List.flatMap]
  · intro q hq
    obtain ⟨pe, hpe, hq'⟩ := List.mem_flatMap.1 hq
    obtain ⟨po, hpo, hpq⟩ := List.mem_map.1 hq'
    rw [← hpq]
    rfl

/-- Witness for C6 (amended): the theorem applied to the "one rule /
multiple peer / multiple port" fixture (2 peers, 2 numeric ports). -/
theorem compute_ingress_cross_product_witness :
    portsFixture.all isNumericPort = true ∧
    peersFixture.all validPeerB = true ∧
    (computeIngressPermissionsForTGBNetworking ⟨[⟨peersFixture, portsFixture⟩]⟩ [] =
      .ok (peersFixture.flatMap
        (fun pe => portsFixture.map (fun po => expectedPermFor pe po))) ∧
    (peersFixture.flatMap
        (fun pe => portsFixture.map (fun po => expectedPermFor pe po))).length
      = peersFixture.length * portsFixture.length ∧
    ∀ q ∈ peersFixture.flatMap
        (fun pe => portsFixture.map (fun po => expectedPermFor pe po)),
      q.labels = [(tgbNetworkingIPPermissionLabelKey,
        tgbNetworkingIPPermissionLabelValue)]) :=
  ⟨by decide, by decide,
    compute_ingress_cross_product peersFixture portsFixture []
      (by decide) (by decide)⟩

/-- C10: whenever some live binding has a networking policy but no registry
entry, `attemptGarbageCollection` performs no security-group fetch and
issues no reconciler calls, leaving the registry untouched (it returns
successfully doing nothing). -/
theorem gc_aborts_on_unregistered_live_binding (live : List TGBInfo)
    (reg : Registry) (fetchedSGs : List String) (t : TGBInfo)
    (ht : t ∈ live) (hnet : t.hasNetworking = true)
    (hmiss : t.name ∉ reg.map Prod.fst) :
    attemptGarbageCollection live reg fetchedSGs =
      ⟨false, [], reg⟩ := by
  have hguard : gcGuardOK live reg = false := by
    rcases hg : gcGuardOK live reg with _ | _
    · rfl
    · have := List.all_eq_true.1 hg t ht
      rw [hnet] at this
      simp only [Bool.not_true, Bool.false_or, decide_eq_true_eq] at this
      exact absurd this hmiss
  simp [attemptGarbageCollection, hguard]

/-- Witness for C10: the theorem applied to the "empty cache, tgbs present
in cluster" fixture, whose live tgb-a declares networking but has no cache
entry. -/
theorem gc_aborts_on_unregistered_live_binding_witness :
    (⟨⟨"ns-a", "tgb-a"⟩, true⟩ : TGBInfo) ∈ liveGCFixture ∧
    (⟨⟨"ns-a", "tgb-a"⟩, true⟩ : TGBInfo).hasNetworking = true ∧
    (⟨"ns-a", "tgb-a"⟩ : NamespacedName) ∉ ([] : Registry).map Prod.fst ∧
    attemptGarbageCollection liveGCFixture [] ["sg-a", "sg-b"] =
      ⟨false, [], []⟩ :=
  ⟨by decide, by decide, by decide,
    gc_aborts_on_unregistered_live_binding liveGCFixture [] ["sg-a", "sg-b"]
      ⟨⟨"ns-a", "tgb-a"⟩, true⟩ (by decide) (by decide) (by decide)⟩

/-- C5: during `attemptGarbageCollection` (when the sweep proceeds), every
security group returned by the cloud fetch whose remaining desired
permissions are empty once stale registry entries are removed is still
passed to the reconciler with an empty desired permission list. -/
theorem gc_empty_desired_still_reconciled (live : List TGBInfo)
    (reg : Registry) (fetchedSGs : List String) (sg : String)
    (hguard : gcGuardOK live reg = true) (hsg : sg ∈ fetchedSGs)
    (hempty : gcDesiredForSG (gcRegistryAfter live reg) sg = []) :
    (sg, ([] : List IPPermissionInfo)) ∈
      (attemptGarbageCollection live reg fetchedSGs).reconcileCalls := by
  simp only [attemptGarbageCollection, if_pos hguard]
  by_cases hch : sg ∈ (sgKeysOfRegistry reg).filter
      (fun s => gcDesiredForSG reg s ≠ gcDesiredForSG (gcRegistryAfter live reg) s)
  · refine List.mem_map.2 ⟨sg, List.mem_append_left _ hch, ?_⟩
    rw [hempty]
  · have hef : sg ∈ fetchedSGs.filter
        (fun s => gcDesiredForSG (gcRegistryAfter live reg) s = []
          ∧ s ∉ (sgKeysOfRegistry reg).filter
            (fun s' => gcDesiredForSG reg s'
              ≠ gcDesiredForSG (gcRegistryAfter live reg) s')) :=
      List.mem_filter.2 ⟨hsg, decide_eq_true ⟨hempty, hch⟩⟩
    refine List.mem_map.2 ⟨sg, List.mem_append_right _ hef, ?_⟩
    rw [hempty]

/-- Witness for C5: the theorem applied to the "cache correct, tgbs present
in cluster" fixture, where fetched sg-a has no remaining desired
permissions. -/
theorem gc_empty_desired_still_reconciled_witness :
    gcGuardOK liveGCFixture registryGCFixture = true ∧
    "sg-a" ∈ ["sg-a", "sg-b"] ∧
    gcDesiredForSG (gcRegistryAfter liveGCFixture registryGCFixture) "sg-a" = [] ∧
    ("sg-a", ([] : List IPPermissionInfo)) ∈
      (attemptGarbageCollection liveGCFixture registryGCFixture
        ["sg-a", "sg-b"]).reconcileCalls :=
  ⟨by decide, by decide, by decide,
    gc_empty_desired_still_reconciled liveGCFixture registryGCFixture
      ["sg-a", "sg-b"] "sg-a" (by decide) (by decide) (by decide)⟩

/-- Counterexample to C2: in `registryDuplicate` the stale binding ns/dead
references security group "sg-x", yet removing the stale entry does not
change the desired permissions (the live binding contributes the identical
rule), so the sweep issues no reconcile call at all — a stale registry
entry does not trigger a reconcile call for every security group it
referenced. -/
theorem gc_stale_entry_without_call_counterexample :
    ((⟨"ns", "dead"⟩, [("sg-x", [permSharedTCP80])]) :
        NamespacedName × SGPermMap) ∈ registryDuplicate ∧
    (⟨"ns", "dead"⟩ : NamespacedName) ∉ liveDuplicate.map TGBInfo.name ∧
    "sg-x" ∈ ([("sg-x", [permSharedTCP80])] : SGPermMap).map Prod.fst ∧
    gcGuardOK liveDuplicate registryDuplicate = true ∧
    (attemptGarbageCollection liveDuplicate registryDuplicate
      []).reconcileCalls = [] :=
  ⟨by decide, by decide, by decide, by decide, by decide⟩

/-- C2 (amended): when the sweep proceeds, a registry entry whose binding is
absent from the live cluster list triggers a reconcile call for every
security group it referenced whose aggregated desired permissions change
once stale entries are removed; and a registry entry matching a live
binding with a nonempty permission list for a security group triggers no
reconcile call for that group as long as no stale entry contributes
permissions to it (fetched groups with empty remaining desired state are
still swept, per C5). -/
theorem gc_reconcile_stale_and_live (live : List TGBInfo) (reg : Registry)
    (fetchedSGs : List String) (b : NamespacedName) (m : SGPermMap)
    (sg : String) (ps : List IPPermissionInfo)
    (hguard : gcGuardOK live reg = true) (hb : (b, m) ∈ reg) :
    (b ∉ live.map TGBInfo.name → sg ∈ m.map Prod.fst →
      gcDesiredForSG reg sg ≠ gcDesiredForSG (gcRegistryAfter live reg) sg →
      (sg, gcDesiredForSG (gcRegistryAfter live reg) sg) ∈
        (attemptGarbageCollection live reg fetchedSGs).reconcileCalls) ∧
    (b ∈ live.map TGBInfo.name → alookup sg m = some ps → ps ≠ [] →
      (∀ e ∈ reg, e.1 ∉ live.map TGBInfo.name →
        (alookup sg e.2).getD [] = ([] : List IPPermissionInfo)) →
      ∀ d, (sg, d) ∉
        (attemptGarbageCollection live reg fetchedSGs).reconcileCalls) := by
  constructor
  · intro hstale hsg hch
    simp only [attemptGarbageCollection, if_pos hguard]
    refine List.mem_map.2 ⟨sg, List.mem_append_left _ ?_, rfl⟩
    refine List.mem_filter.2 ⟨?_, decide_eq_true hch⟩
    rw [sgKeysOfRegistry_iff]
    exact ⟨(b, m), hb, hsg⟩
  · intro hlive hps hpsne hnostale d hmem
    have hceq : contributionsForSG (gcRegistryAfter live reg) sg
        = contributionsForSG reg sg := by
      apply contributionsForSG_filter
      intro e he hpf
      apply hnostale e he
      intro hc
      rw [decide_eq_true hc] at hpf
      exact Bool.noConfusion hpf
    have hdeq : gcDesiredForSG (gcRegistryAfter live reg) sg
        = gcDesiredForSG reg sg := by
      simp only [gcDesiredForSG, hceq]
    have hbafter : (b, m) ∈ gcRegistryAfter live reg :=
      List.mem_filter.2 ⟨hb, decide_eq_true hlive⟩
    have hcne : contributionsForSG (gcRegistryAfter live reg) sg ≠ [] := by
      rcases hpsc : ps with _ | ⟨p, ps'⟩
      · exact absurd hpsc hpsne
      · exact List.ne_nil_of_mem
          (mem_contributionsForSG hbafter hps (hpsc ▸ List.mem_cons_self p ps'))
    have hdesne : gcDesiredForSG (gcRegistryAfter live reg) sg ≠ [] :=
      restrictIngressPermissions_ne_nil hcne
    simp only [attemptGarbageCollection, if_pos hguard] at hmem
    obtain ⟨sg', hsg', heq⟩ := List.mem_map.1 hmem
    have hsgeq : sg' = sg := congrArg Prod.fst heq
    subst hsgeq
    rcases List.mem_append.1 hsg' with hchm | hefm
    · have hcond := List.of_mem_filter hchm
      rw [decide_eq_true_eq] at hcond
      exact hcond hdeq.symm
    · have hcond := List.of_mem_filter hefm
      rw [decide_eq_true_eq] at hcond
      exact hdesne hcond.1

/-- Witness for C2 (amended): the theorem applied twice, non-vacuously, to
the mixed scenario `registryMixed`/`liveMixed`.  The stale conjunct fires
at the stale binding ns/dead on "sg-x" (its removal changes the desired
state, and the sweep does call the reconciler for "sg-x"); the no-call
conjunct fires at the live binding ns/live on "sg-y" (no stale entry
contributes to "sg-y", and indeed no reconcile call targets it although
the sweep issues a call for "sg-x"). -/
theorem gc_reconcile_stale_and_live_witness :
    gcGuardOK liveMixed registryMixed = true ∧
    ((⟨"ns", "dead"⟩, [("sg-x", [permSharedTCP80])]) :
        NamespacedName × SGPermMap) ∈ registryMixed ∧
    (⟨"ns", "dead"⟩ : NamespacedName) ∉ liveMixed.map TGBInfo.name ∧
    "sg-x" ∈ ([("sg-x", [permSharedTCP80])] : SGPermMap).map Prod.fst ∧
    gcDesiredForSG registryMixed "sg-x"
      ≠ gcDesiredForSG (gcRegistryAfter liveMixed registryMixed) "sg-x" ∧
    ("sg-x", gcDesiredForSG (gcRegistryAfter liveMixed registryMixed) "sg-x")
      ∈ (attemptGarbageCollection liveMixed registryMixed []).reconcileCalls ∧
    ((⟨"ns", "live"⟩, [("sg-y", [permTCP80To8080])]) :
        NamespacedName × SGPermMap) ∈ registryMixed ∧
    (⟨"ns", "live"⟩ : NamespacedName) ∈ liveMixed.map TGBInfo.name ∧
    alookup "sg-y" [("sg-y", [permTCP80To8080])] = some [permTCP80To8080] ∧
    ([permTCP80To8080] : List IPPermissionInfo) ≠ [] ∧
    (∀ e ∈ registryMixed, e.1 ∉ liveMixed.map TGBInfo.name →
      (alookup "sg-y" e.2).getD [] = ([] : List IPPermissionInfo)) ∧
    (attemptGarbageCollection liveMixed registryMixed []).reconcileCalls ≠ [] ∧
    ∀ d, ("sg-y", d) ∉
      (attemptGarbageCollection liveMixed registryMixed []).reconcileCalls :=
  ⟨by decide, by decide, by decide, by decide, by decide,
    (gc_reconcile_stale_and_live liveMixed registryMixed [] ⟨"ns", "dead"⟩
      [("sg-x", [permSharedTCP80])] "sg-x" [] (by decide) (by decide)).1
      (by decide) (by decide) (by decide),
    by decide, by decide, by decide, by decide, by decide, by decide,
    (gc_reconcile_stale_and_live liveMixed registryMixed [] ⟨"ns", "live"⟩
      [("sg-y", [permTCP80To8080])] "sg-y" [permTCP80To8080]
      (by decide) (by decide)).2
      (by decide) (by decide) (by decide) (by decide)⟩

/-- C9: when the ENI does not have exactly one attached security group,
`resolveEndpointSGForENI` filters the fetched groups to those tagged
kubernetes.io/cluster/<clusterName>=owned and matching every configured
selector tag, returns the unique matching group, and with zero or several
matches fails with the error naming the expected tag set (the clusterName
and the configured filter map) and the ENI ID. -/
theorem resolve_endpoint_sg_filter (cn : String)
    (sel : List (String × String)) (eni : ENIInfo)
    (fetched : List SecurityGroupInfo)
    (hmulti : eni.securityGroups.length ≠ 1) :
    (∀ info, fetched.filter (fun i =>
        hasClusterOwnershipTag cn i && matchesTargetENISGTags sel i) = [info] →
      resolveEndpointSGForENI cn sel eni fetched = .ok info.securityGroupID) ∧
    ((fetched.filter (fun i =>
        hasClusterOwnershipTag cn i && matchesTargetENISGTags sel i)).length
          ≠ 1 →
      resolveEndpointSGForENI cn sel eni fetched = .error
        ("expected exactly one securityGroup tagged with kubernetes.io/cluster/"
          ++ cn ++ (if sel.isEmpty then ""
            else " and " ++ goFormatTagMap sel)
          ++ " for eni " ++ eni.networkInterfaceID ++ ", got: "
          ++ goFormatStringList ((fetched.filter (fun i =>
              hasClusterOwnershipTag cn i && matchesTargetENISGTags sel i)).map
              SecurityGroupInfo.securityGroupID)
          ++ " (clusterName: " ++ cn ++ ")")) := by
  obtain ⟨eid, sgs⟩ := eni
  rcases sgs with _ | ⟨a, _ | ⟨b, rest⟩⟩
  · constructor
    · intro info hinfo
      simp only [resolveEndpointSGForENI, hinfo]
    · intro hlen
      rcases hfl : fetched.filter (fun i =>
          hasClusterOwnershipTag cn i && matchesTargetENISGTags sel i)
        with _ | ⟨x, _ | ⟨y, r⟩⟩
      · simp only [resolveEndpointSGForENI, hfl, endpointSGErrorMessage]
      · rw [hfl] at hlen
        simp at hlen
      · simp only [resolveEndpointSGForENI, hfl, endpointSGErrorMessage]
  · exact absurd rfl hmulti
  · constructor
    · intro info hinfo
      simp only [resolveEndpointSGForENI, hinfo]
    · intro hlen
      rcases hfl : fetched.filter (fun i =>
          hasClusterOwnershipTag cn i && matchesTargetENISGTags sel i)
        with _ | ⟨x, _ | ⟨y, r⟩⟩
      · simp only [resolveEndpointSGForENI, hfl, endpointSGErrorMessage]
      · rw [hfl] at hlen
        simp at hlen
      · simp only [resolveEndpointSGForENI, hfl, endpointSGErrorMessage]

/-- Witness for C9: the theorem applied to the fixture of "A single
security group with cluster name tag and one service target tag set":
the unique match sg-b is returned, and with the non-matching filter
keyA=valueNotA the call fails with the exact fixture error message. -/
theorem resolve_endpoint_sg_filter_witness :
    eniFixture.securityGroups.length ≠ 1 ∧
    fetchedSGFixture.filter (fun i =>
      hasClusterOwnershipTag "cluster-a" i
        && matchesTargetENISGTags [("keyA", "valueA")] i) =
      [⟨"sg-b", [("kubernetes.io/cluster/cluster-a", "owned"),
        ("keyA", "valueA"), ("keyB", "valueB2"), ("keyC", "valueC"),
        ("keyD", "valueD")]⟩] ∧
    resolveEndpointSGForENI "cluster-a" [("keyA", "valueA")] eniFixture
      fetchedSGFixture = .ok "sg-b" ∧
    resolveEndpointSGForENI "cluster-a" [("keyA", "valueNotA")] eniFixture
      fetchedSGFixture = .error
      ("expected exactly one securityGroup tagged with kubernetes.io/cluster/cluster-a and map[keyA:valueNotA] for eni eni-a, got: [] (clusterName: cluster-a)") := by
  refine ⟨by decide, by decide, ?_, ?_⟩
  · exact (resolve_endpoint_sg_filter "cluster-a" [("keyA", "valueA")]
      eniFixture fetchedSGFixture (by decide)).1
      ⟨"sg-b", [("kubernetes.io/cluster/cluster-a", "owned"),
        ("keyA", "valueA"), ("keyB", "valueB2"), ("keyC", "valueC"),
        ("keyD", "valueD")]⟩ (by decide)
  · have h := (resolve_endpoint_sg_filter "cluster-a" [("keyA", "valueNotA")]
      eniFixture fetchedSGFixture (by decide)).2 (by decide)
    rw [h]
    rfl
